import Mathlib

/-!
Shallow embedding of the match-feature aggregation pipeline in
`src/data_cleaning.py`, together with proofs settling the frozen claims
about it.

Conventions used throughout:
* A pandas DataFrame is modelled as a `List` of rows; a row is a structure
  holding exactly the columns the modelled function touches.
* The canonical match index `range(50000)` is kept as the literal `50000`,
  exactly as the source hardcodes it.
* Integer-valued columns (times, deaths, gold, role indicators) are `Int`
  or `Nat`; values that arise from division (a mean, or a deviation from a
  mean) are `ℚ`.
* Python slicing `iloc[:k]` for `k ≥ 0` is `List.take k`; for `k = -1`
  (which the source produces via `10*count - 1` at `count = 0`) it is
  `List.dropLast`.
-/

namespace DataCleaning

/-! ## Team/Selection Encoder (`get_hero_selection`) -/

/-- NumPy fancy-index assignment `v[ps] = 1`: set position `p` to `1` for
each `p` in `ps`, in order. -/
def assign_ones (v : List Nat) (ps : List Nat) : List Nat :=
  ps.foldl (fun w p => w.set p 1) v

/-- `get_hero_selection` (src/data_cleaning.py:35-47): starting from
`np.zeros(2*num_heros)`, radiant picks are written at `hero_id - 1` and
dire picks at `hero_id + num_heros - 1`. -/
def get_hero_selection (num_heros : Nat) (radiant_heros dire_heros : List Nat) : List Nat :=
  assign_ones (List.replicate (2 * num_heros) 0)
    (radiant_heros.map (fun h => h - 1) ++ dire_heros.map (fun h => h + num_heros - 1))

/-! ## Time-Windowed Wealth Aggregator: max wealth (`construct_x_seconds_max_wealth`) -/

/-- The wealth rows of one match (`groupby('match_id')` group). -/
def group_rows (rows : List (Nat × List Int)) (m : Nat) : List (List Int) :=
  (rows.filter (fun r => r.1 == m)).map (fun r => r.2)

/-- Column-wise maximum of a group of rows (pandas `.max()` on a
non-empty group). -/
def cols_max : List (List Int) → List Int
  | [] => []
  | v :: vs => vs.foldl (fun acc r => List.zipWith max acc r) v

/-- `construct_x_seconds_max_wealth` (src/data_cleaning.py:58-64):
`x_seconds_df.groupby('match_id').max()`.  The output is indexed by the
distinct match ids present in the input, in sorted order (groupby sorts
its keys); there is no reindexing against `range(50000)`.  Each row is
a pair (match id, column-wise maxima of that match's rows). -/
def construct_x_seconds_max_wealth (rows : List (Nat × List Int)) : List (Nat × List Int) :=
  (List.insertionSort (fun a b => a ≤ b) (rows.map Prod.fst).dedup).map
    (fun m => (m, cols_max (group_rows rows m)))

/-- One row of the objectives table (only the columns
`construct_ten_min_firstblood_df` reads; `player1`, `player2`, `team` and
`value` are dropped unread). -/
structure ObjRow where
  match_id : Nat
  time : Int
  subtype : String
  slot : Nat
deriving DecidableEq, Repr

/-- `construct_ten_min_firstblood_df` (src/data_cleaning.py:222-233):
keep the objective rows with `time <= 600` and subtype
`CHAT_MESSAGE_FIRSTBLOOD`, and for each compute
`radiant_firstblood = int(slot < 5)`.  The output has one row per
qualifying event, not one row per match. -/
def construct_ten_min_firstblood_df (objs : List ObjRow) : List (Nat × Nat) :=
  (objs.filter (fun o => o.time ≤ 600 && o.subtype == "CHAT_MESSAGE_FIRSTBLOOD")).map
    (fun o => (o.match_id, if o.slot < 5 then 1 else 0))

/-! ## Event-Window Aggregator: team-fight count (`construct_num_team_fights`) -/

/-- One row of the team-fight summary table. -/
structure TeamFight where
  match_id : Nat
  end_time : Int
deriving DecidableEq, Repr

/-- `construct_num_team_fights` (src/data_cleaning.py:81-88): filter to
fights with `end < threshold` (strict), count rows per match, join against
`range(50000)`, fill missing matches with 0 and cast to int. -/
def construct_num_team_fights (fights : List TeamFight) (threshold : Int) : List (Nat × Nat) :=
  (List.range 50000).map (fun m =>
    (m, ((fights.filter (fun f => f.end_time < threshold)).filter (fun f => f.match_id == m)).length))

/-! ## Event-Window Aggregator: net death counts (`get_net_death_count`) -/

/-- One row of the team-fight participant table (only the columns read). -/
structure FightRow where
  player_slot : Nat
  deaths : Nat
deriving DecidableEq, Repr

/-- The participant window `iloc[:num_teamfights*10 - 1]`
(src/data_cleaning.py:111).  For `c ≥ 1` the Python slice keeps the first
`10*c - 1` rows; for `c = 0` the bound is `-1` and the slice keeps all
rows but the last. -/
def window_rows (rows : List FightRow) (c : Nat) : List FightRow :=
  if c = 0 then rows.dropLast else rows.take (c * 10 - 1)

/-- `get_net_death_count` (src/data_cleaning.py:104-116): window the
match's participant rows by the team-fight count, return `[0, 0]` when the
window is empty, otherwise the death sums of slots `< 50` and `> 50`. -/
def get_net_death_count (rows : List FightRow) (c : Nat) : Nat × Nat :=
  if (window_rows rows c).length = 0 then (0, 0)
  else ((((window_rows rows c).filter (fun r => r.player_slot < 50)).map (fun r => r.deaths)).sum,
        (((window_rows rows c).filter (fun r => 50 < r.player_slot)).map (fun r => r.deaths)).sum)

/-- `construct_net_death_count_from_teamfights` (src/data_cleaning.py:90-102):
apply `get_net_death_count` per match present in the participant table
(`games` is the groupby result: one `(match_id, rows)` pair per present
match), then reindex against `range(50000)` with fill value `[0, 0]`.
`counts m` models `num_team_fights_df.iloc[m, 0]`. -/
def construct_net_death_count (games : List (Nat × List FightRow)) (counts : Nat → Nat) :
    List (Nat × (Nat × Nat)) :=
  (List.range 50000).map (fun m =>
    match games.find? (fun g => g.1 == m) with
    | some g => (m, get_net_death_count g.2 (counts m))
    | none => (m, (0, 0)))

/-! ## Hero Metadata Adapter lookups (`get_game_hero_composition`, `get_game_hero_info`) -/

/-- Row lookup `hero_attribute_df.iloc[i]` (in-range use only). -/
def attr_row (attr : List (List Int)) (i : Nat) : List Int := attr.getD i []

/-- pandas column sums of a set of selected rows (`.sum().tolist()` on a
frame with `num_roles` columns). -/
def col_sums (num_roles : Nat) (rs : List (List Int)) : List Int :=
  rs.foldl (fun acc r => List.zipWith (fun a b => a + b) acc r) (List.replicate num_roles 0)

/-- `get_game_hero_composition` (src/data_cleaning.py:181-188): for each
side, select the attribute rows `hero_attribute_df.iloc[hero_ids]` — note
the source passes the raw `hero_id` values, with no `- 1` — and sum the
columns; concatenate radiant sums then dire sums. -/
def get_game_hero_composition (num_roles : Nat) (attr : List (List Int))
    (radiant_heros dire_heros : List Nat) : List Int :=
  col_sums num_roles (radiant_heros.map (attr_row attr)) ++
    col_sums num_roles (dire_heros.map (attr_row attr))

/-- `np.argmax` over one attribute row: index of the first maximum. -/
def argmax_go (bi : Nat) (bv : Int) (i : Nat) : List Int → Nat
  | [] => bi
  | x :: xs => if bv < x then argmax_go i x (i + 1) xs else argmax_go bi bv (i + 1) xs

/-- `np.argmax` applied to a row (src/data_cleaning.py:241). -/
def list_argmax : List Int → Nat
  | [] => 0
  | x :: xs => argmax_go 0 x 1 xs

/-- The major role `get_game_hero_info` (src/data_cleaning.py:235-244)
assigns to a player: `major_roles.iloc[hero_id]` — again the raw
`hero_id`, with no `- 1`. -/
def player_major_role (attr : List (List Int)) (hero_id : Nat) : Nat :=
  list_argmax (attr_row attr hero_id)

/-! ## Gold growth statistics (`construct_x_seconds_gold_growth_benchmark`) -/

/-- One row of the windowed wealth table: its match id and its gold
columns (`x_seconds_df.iloc[:, 2::3]`). -/
structure WealthRow where
  match_id : Nat
  gold : List Int
deriving DecidableEq, Repr

/-- Walks the wealth rows carrying the previous row, mirroring
`.diff()` followed by the filter `iloc[:, 0] >= 0` and `- 100`
(src/data_cleaning.py:72-75): for each row, the element-wise difference
`d` from the previous row is kept iff its first component is `≥ 0`
(the first row of the table has no difference — NaN — and is dropped),
and every component of a kept difference has 100 subtracted. -/
def growth_aux (prev : WealthRow) : List WealthRow → List (Nat × List Int)
  | [] => []
  | r :: rs =>
    let d := List.zipWith (fun a b => a - b) r.gold prev.gold
    match d.head? with
    | some d0 =>
      if 0 ≤ d0 then (r.match_id, d.map (fun v => v - 100)) :: growth_aux r rs
      else growth_aux r rs
    | none => growth_aux r rs

/-- The retained, normalized gold-growth table: pairs
(match id of the later sample, normalized difference vector). -/
def gold_growth_rows : List WealthRow → List (Nat × List Int)
  | [] => []
  | r :: rs => growth_aux r rs

/-- What one consecutive pair (later sample, earlier sample) contributes
to the retained table, stated directly from the spec's words: the pair is
kept iff the difference in the *first* gold column is non-negative, and
100 is subtracted from every component of a kept difference. -/
def growth_step (rp : WealthRow × WealthRow) : Option (Nat × List Int) :=
  match (List.zipWith (fun a b => a - b) rp.1.gold rp.2.gold).head? with
  | some d0 =>
    if 0 ≤ d0 then
      some (rp.1.match_id,
        (List.zipWith (fun a b => a - b) rp.1.gold rp.2.gold).map (fun v => v - 100))
    else none
  | none => none

/-- The same table described non-recursively over consecutive pairs:
`rows.tail.zip rows` enumerates each sample together with its
predecessor. -/
def gold_growth_rows_spec (rows : List WealthRow) : List (Nat × List Int) :=
  (rows.tail.zip rows).filterMap growth_step

/-- The normalized growth vectors grouped under match `m`
(`groupby('match_id')` group of the filtered table). -/
def gold_growth_group (rows : List WealthRow) (m : Nat) : List (List Int) :=
  (gold_growth_rows rows).filterMap (fun e => if e.1 = m then some e.2 else none)

/-- The per-match mean of the first normalized gold-growth column
(one entry of `gold_growth_mean`, src/data_cleaning.py:77); `none` when
match `m` has no retained growth rows (no group is emitted for it). -/
def gold_growth_mean (rows : List WealthRow) (m : Nat) : Option ℚ :=
  let vs := (gold_growth_group rows m).filterMap List.head?
  if vs.length = 0 then none else some ((vs.sum : ℚ) / (vs.length : ℚ))

/-! ## Cross-Entity Comparison Engine (`get_carry_comparison`) -/

/-- One row of `role_gold_interaction_df` (only the columns
`get_carry_comparison` reads): side flag, major role and
`max_gold_diff_from_match_mean`. -/
structure CarryRow where
  radiant_player : Bool
  role : String
  gold_diff : ℚ
deriving DecidableEq, Repr

/-- The carry players of a match (src/data_cleaning.py:306). -/
def carries (g : List CarryRow) : List CarryRow :=
  g.filter (fun r => r.role == "Carry")

/-- pandas `.max()` of a column; the `0` default is only reached on an
empty column, which the caller's guard rules out. -/
def col_max (l : List ℚ) : ℚ :=
  match l with
  | [] => 0
  | v :: vs => vs.foldl max v

/-- `get_carry_comparison` (src/data_cleaning.py:299-314): `-1` when the
carries' `radiant_player` column has fewer than two unique values,
otherwise 1 iff the radiant carries' maximal gold deviation strictly
exceeds the dire carries', else 0. -/
def get_carry_comparison (g : List CarryRow) : Int :=
  let cs := carries g
  if (cs.map (fun r => r.radiant_player)).dedup.length < 2 then -1
  else
    let radiant_carries := cs.filter (fun r => r.radiant_player)
    let dire_carries := cs.filter (fun r => !r.radiant_player)
    if col_max (dire_carries.map (fun r => r.gold_diff)) <
        col_max (radiant_carries.map (fun r => r.gold_diff)) then 1
    else 0

/-- `construct_carry_comparison_df` (src/data_cleaning.py:287-297):
compute the per-match outcome, one-hot encode it with `pd.get_dummies`
(whose columns are exactly the *occurring* outcome values), rename
`1 → Radiant_lead`, `0 → Dire_lead`, `-1 → Unknown`, and select the two
columns `Radiant_lead`, `Dire_lead`.  The selection raises when either
column does not exist, i.e. when outcome 1 or outcome 0 occurs for no
match; this is modelled as `none`.  Each returned row is the pair
(`Radiant_lead`, `Dire_lead`). -/
def construct_carry_comparison_df (games : List (List CarryRow)) :
    Option (List (Nat × Nat)) :=
  if (1 : Int) ∈ (games.map get_carry_comparison).dedup ∧
      (0 : Int) ∈ (games.map get_carry_comparison).dedup then
    some ((games.map get_carry_comparison).map (fun o =>
      ((if o = 1 then 1 else 0), (if o = 0 then 1 else 0))))
  else none

/-! ## Shared lemmas -/

/-- Reading position `m < n` of a table built by mapping over the
canonical range. -/
theorem range_map_getElem? {α : Type} (f : Nat → α) {m n : Nat} (h : m < n) :
    ((List.range n).map f)[m]? = some (f m) := by
  rw [List.getElem?_map, List.getElem?_range h, Option.map_some']

theorem window_rows_zero (rows : List FightRow) : window_rows rows 0 = rows.dropLast := by
  unfold window_rows
  rw [if_pos rfl]

/-- At team-fight count 0 the Python slice `iloc[:-1]` keeps all rows but
the last, and the death sums are taken over that window (the empty-window
guard agrees with the empty sums). -/
theorem get_net_death_count_zero (rows : List FightRow) :
    get_net_death_count rows 0 =
      (((rows.dropLast.filter (fun r => r.player_slot < 50)).map (fun r => r.deaths)).sum,
       ((rows.dropLast.filter (fun r => 50 < r.player_slot)).map (fun r => r.deaths)).sum) := by
  unfold get_net_death_count
  rw [window_rows_zero]
  by_cases h : rows.dropLast.length = 0
  · rw [if_pos h, List.length_eq_zero.mp h]
    rfl
  · rw [if_neg h]

/-! ## C1 -/

/-- C1 counterexample: a windowed wealth table whose only rows belong to
match 0 yields a max-wealth table indexed by `[0]`, not by the canonical
range `{0, …, 49999}`. -/
theorem max_wealth_index_cex :
    (construct_x_seconds_max_wealth [(0, [5]), (0, [7]), (0, [3])]).map Prod.fst ≠
      List.range 50000 := by
  have hl : (construct_x_seconds_max_wealth [(0, [5]), (0, [7]), (0, [3])]).map Prod.fst
      = [0] := by decide
  intro h
  rw [hl] at h
  have hlen := congrArg List.length h
  rw [List.length_range] at hlen
  simp at hlen

/-- C1 (amended): the canonical-index completeness invariant holds for
the aggregators that reindex against `range(50000)` —
`construct_num_team_fights` and the net-death-count table — whose row
index is exactly `{0, …, 49999}` for every input; it fails for
`construct_x_seconds_max_wealth` (index = distinct match ids present)
and `construct_ten_min_firstblood_df` (one row per qualifying event). -/
theorem reindexed_tables_complete (fights : List TeamFight) (t : Int)
    (games : List (Nat × List FightRow)) (counts : Nat → Nat) :
    (construct_num_team_fights fights t).map Prod.fst = List.range 50000 ∧
    (construct_net_death_count games counts).map Prod.fst = List.range 50000 := by
  constructor
  · rw [construct_num_team_fights, List.map_map]
    have : (Prod.fst ∘ fun m : Nat =>
        (m, ((fights.filter (fun f => f.end_time < t)).filter
          (fun f => f.match_id == m)).length)) = id := by
      funext m
      rfl
    rw [this, List.map_id]
  · rw [construct_net_death_count, List.map_map]
    have : (Prod.fst ∘ fun m : Nat =>
        match games.find? (fun g => g.1 == m) with
        | some g => (m, get_net_death_count g.2 (counts m))
        | none => (m, (0, 0))) = id := by
      funext m
      simp only [Function.comp_apply, id_eq]
      cases games.find? (fun g => g.1 == m) <;> rfl
    rw [this, List.map_id]

/-! ## C4 -/

/-- C4 counterexample: a fight whose `end` equals the threshold is *not*
counted (`end < threshold` is strict), so the claimed
`end ≤ threshold` rule gives 1 where the table holds 0. -/
theorem num_team_fights_boundary_cex :
    (construct_num_team_fights [⟨0, 600⟩] 600)[0]? = some (0, 0) ∧
    (([(⟨0, 600⟩ : TeamFight)].filter (fun f => f.end_time ≤ 600)).length = 1) := by
  constructor
  · rw [construct_num_team_fights, range_map_getElem? _ (by norm_num : (0 : Nat) < 50000)]
    decide
  · decide

/-- C4 (amended): for every match `m` in the canonical range, the
team-fight count is the number of that match's fights whose end time is
*strictly less than* the threshold (a fight ending exactly at the
threshold is excluded); matches with no qualifying fights get 0, and all
counts are natural numbers. -/
theorem num_team_fights_spec (fights : List TeamFight) (t : Int) (m : Nat)
    (hm : m < 50000) :
    (construct_num_team_fights fights t)[m]? =
      some (m, (fights.filter (fun f => decide (f.match_id = m ∧ f.end_time < t))).length) := by
  rw [construct_num_team_fights, range_map_getElem? _ hm, List.filter_filter]
  have : (fun f : TeamFight => (f.match_id == m) && decide (f.end_time < t)) =
      (fun f : TeamFight => decide (f.match_id = m ∧ f.end_time < t)) := by
    funext f
    by_cases h1 : f.match_id = m <;> by_cases h2 : f.end_time < t <;> simp [h1, h2]
  rw [this]

theorem num_team_fights_spec_witness :
    (construct_num_team_fights [⟨0, 599⟩, ⟨0, 650⟩] 600)[0]? = some (0, 1) := by
  rw [num_team_fights_spec [⟨0, 599⟩, ⟨0, 650⟩] 600 0 (by norm_num)]
  decide

/-! ## C3 -/

/-- C3 counterexample: a match that is present in the participant table
with a team-fight count of 0 does *not* emit `[0, 0]`: the slice
`iloc[:0*10 - 1]` keeps all rows but the last, so the death sums of those
rows are emitted ((1, 2) here). -/
theorem net_death_zero_count_cex :
    (construct_net_death_count [(0, [⟨0, 1⟩, ⟨128, 2⟩, ⟨3, 5⟩])] (fun _ => 0))[0]? ≠
      some (0, (0, 0)) := by
  rw [construct_net_death_count, range_map_getElem? _ (by norm_num : (0 : Nat) < 50000)]
  decide

/-- C3 (amended): a match absent from the participant table is emitted as
`[0, 0]` by the reindex fill; a match present with team-fight count 0 is
emitted as the death sums over all its participant rows but the last
(Python slice `[:-1]`), which is `[0, 0]` only when those sums vanish —
e.g. when the match has at most one participant row. -/
theorem net_death_count_zero_fights (games : List (Nat × List FightRow))
    (counts : Nat → Nat) (m : Nat) (hm : m < 50000) :
    (games.find? (fun g => g.1 == m) = none →
      (construct_net_death_count games counts)[m]? = some (m, (0, 0))) ∧
    (∀ pr : Nat × List FightRow, games.find? (fun g => g.1 == m) = some pr → counts m = 0 →
      (construct_net_death_count games counts)[m]? =
        some (m,
          (((pr.2.dropLast.filter (fun r => r.player_slot < 50)).map (fun r => r.deaths)).sum,
           ((pr.2.dropLast.filter (fun r => 50 < r.player_slot)).map (fun r => r.deaths)).sum))) := by
  constructor
  · intro h
    rw [construct_net_death_count, range_map_getElem? _ hm, h]
  · intro pr h hc
    rw [construct_net_death_count, range_map_getElem? _ hm, h]
    simp only
    rw [hc, get_net_death_count_zero]

theorem net_death_count_zero_fights_witness :
    (construct_net_death_count [(0, [⟨0, 1⟩, ⟨128, 2⟩, ⟨3, 5⟩])] (fun _ => 0))[1]? =
        some (1, (0, 0)) ∧
    (construct_net_death_count [(0, [⟨0, 1⟩, ⟨128, 2⟩, ⟨3, 5⟩])] (fun _ => 0))[0]? =
        some (0, (1, 2)) := by
  constructor
  · exact (net_death_count_zero_fights [(0, [⟨0, 1⟩, ⟨128, 2⟩, ⟨3, 5⟩])] (fun _ => 0) 1
      (by norm_num)).1 (by decide)
  · rw [(net_death_count_zero_fights [(0, [⟨0, 1⟩, ⟨128, 2⟩, ⟨3, 5⟩])] (fun _ => 0) 0
      (by norm_num)).2 (0, [⟨0, 1⟩, ⟨128, 2⟩, ⟨3, 5⟩]) (by decide) rfl]
    decide

/-! ## C5 -/

/-- C5: for a match with team-fight count `c ≥ 1` and a participant
sequence of at least `10*c` rows (ten rows per fight occurrence), the
window is exactly the first `10*c - 1` rows, and the emitted pair is the
death sums over slots `< 50` and slots `> 50` within that window (a row
with slot 50 contributes to neither filter). -/
theorem net_death_count_window_spec (rows : List FightRow) (c : Nat) (hc : 1 ≤ c)
    (hlen : 10 * c ≤ rows.length) :
    window_rows rows c = rows.take (10 * c - 1) ∧
    (window_rows rows c).length = 10 * c - 1 ∧
    get_net_death_count rows c =
      ((((rows.take (10 * c - 1)).filter (fun r => r.player_slot < 50)).map
          (fun r => r.deaths)).sum,
       (((rows.take (10 * c - 1)).filter (fun r => 50 < r.player_slot)).map
          (fun r => r.deaths)).sum) := by
  have hc0 : c ≠ 0 := by omega
  have hw : window_rows rows c = rows.take (10 * c - 1) := by
    unfold window_rows
    rw [if_neg hc0, Nat.mul_comm]
  have hl : (window_rows rows c).length = 10 * c - 1 := by
    rw [hw, List.length_take]
    omega
  refine ⟨hw, hl, ?_⟩
  unfold get_net_death_count
  rw [hl, if_neg (by omega), hw]

theorem net_death_count_window_spec_witness :
    get_net_death_count
      [⟨0, 1⟩, ⟨1, 0⟩, ⟨2, 0⟩, ⟨3, 0⟩, ⟨4, 0⟩, ⟨128, 2⟩, ⟨129, 0⟩, ⟨130, 0⟩, ⟨131, 0⟩,
        ⟨132, 3⟩] 1 = (1, 2) := by
  rw [(net_death_count_window_spec
      [⟨0, 1⟩, ⟨1, 0⟩, ⟨2, 0⟩, ⟨3, 0⟩, ⟨4, 0⟩, ⟨128, 2⟩, ⟨129, 0⟩, ⟨130, 0⟩, ⟨131, 0⟩,
        ⟨132, 3⟩] 1 (by norm_num) (by decide)).2.2]
  decide

/-! ## C10 -/

/-- C10: the carry-comparison export succeeds (returns the two columns
`Radiant_lead`, `Dire_lead`) exactly when outcome 1 occurs for at least
one match and outcome 0 occurs for at least one match; otherwise the
column selection fails (`pd.get_dummies` only creates columns for
occurring values). -/
theorem carry_comparison_df_columns (games : List (List CarryRow)) :
    (construct_carry_comparison_df games).isSome ↔
      ((∃ g ∈ games, get_carry_comparison g = 1) ∧
       (∃ g ∈ games, get_carry_comparison g = 0)) := by
  unfold construct_carry_comparison_df
  by_cases h : (1 : Int) ∈ (games.map get_carry_comparison).dedup ∧
      (0 : Int) ∈ (games.map get_carry_comparison).dedup
  · rw [if_pos h]
    obtain ⟨h1, h0⟩ := h
    rw [List.mem_dedup, List.mem_map] at h1 h0
    exact iff_of_true rfl ⟨h1, h0⟩
  · rw [if_neg h]
    refine iff_of_false (by simp) ?_
    intro ⟨h1, h0⟩
    exact h ⟨List.mem_dedup.mpr (List.mem_map.mpr h1),
      List.mem_dedup.mpr (List.mem_map.mpr h0)⟩

/-! ## C2 -/

/-- C2: the code indexes the hero role-attribute table with the raw
`hero_id`, not `hero_id - 1`.  Against a 3-hero attribute table
(row 0 = hero_id 1's roles, row 1 = hero_id 2's, row 2 = hero_id 3's), a
game whose radiant side picked hero 1 and dire side hero 2 gets the role
sums of rows 1 and 2 — not of rows 0 and 1 as the claimed `hero_id - 1`
convention requires — and hero 1's major role is read from row 1, whose
argmax differs from row 0's. -/
theorem hero_attr_lookup_uses_raw_hero_id :
    get_game_hero_composition 2 [[1, 0], [0, 1], [1, 1]] [1] [2] =
      attr_row [[1, 0], [0, 1], [1, 1]] 1 ++ attr_row [[1, 0], [0, 1], [1, 1]] 2 ∧
    get_game_hero_composition 2 [[1, 0], [0, 1], [1, 1]] [1] [2] ≠
      attr_row [[1, 0], [0, 1], [1, 1]] 0 ++ attr_row [[1, 0], [0, 1], [1, 1]] 1 ∧
    player_major_role [[1, 0], [0, 1], [1, 1]] 1 = list_argmax [0, 1] ∧
    list_argmax [0, 1] ≠ list_argmax [1, 0] := by
  decide

/-! ## C7 -/

theorem growth_aux_eq_zip (rs : List WealthRow) :
    ∀ prev, growth_aux prev rs = (rs.zip (prev :: rs)).filterMap growth_step := by
  induction rs with
  | nil =>
    intro prev
    rfl
  | cons r rs ih =>
    intro prev
    rw [List.zip_cons_cons, List.filterMap_cons]
    simp only [growth_aux, growth_step]
    cases hh : (List.zipWith (fun a b => a - b) r.gold prev.gold).head? with
    | none =>
      exact ih r
    | some d0 =>
      dsimp only
      by_cases hd : 0 ≤ d0
      · rw [if_pos hd, if_pos hd, ih r]
      · rw [if_neg hd, if_neg hd]
        exact ih r

/-- Every retained gold-growth row has a non-negative raw difference in
the first gold column, and its stored first component is that raw
difference minus 100. -/
theorem growth_aux_first_col (rs : List WealthRow) :
    ∀ prev, ∀ e ∈ growth_aux prev rs, ∃ d0 : Int, 0 ≤ d0 ∧ e.2.head? = some (d0 - 100) := by
  induction rs with
  | nil =>
    intro prev e he
    simp [growth_aux] at he
  | cons r rs ih =>
    intro prev e he
    simp only [growth_aux] at he
    split at he
    case _ d0 hh =>
      split at he
      case isTrue hd =>
        rcases List.mem_cons.mp he with he | he
        · refine ⟨d0, hd, ?_⟩
          rw [he]
          simp only [List.head?_map, hh, Option.map_some']
        · exact ih r e he
      case isFalse hd =>
        exact ih r e he
    case _ hh =>
      exact ih r e he

/-- C7 counterexample: a consecutive sample pair whose difference is
negative in the second gold column (raw `-80`) but non-negative in the
first is *retained*: the table keeps the normalized entry
`(0, [-50, -180])`, and `-180 < -100` means its raw difference `-80` was
negative, contradicting the claimed exclusion of negative differences in
any gold column. -/
theorem gold_growth_any_column_cex :
    ¬ (∀ e ∈ gold_growth_rows [⟨0, [0, 100]⟩, ⟨0, [50, 20]⟩],
        ∀ v ∈ e.2, (-100 : Int) ≤ v) := by
  decide

/-- C7 (amended): a consecutive gold sample pair is excluded exactly when
the raw difference in the *first* gold column is negative (differences in
the other gold columns are not inspected), and the per-sample baseline of
100 is subtracted from each component of every retained difference before
the per-match statistics are taken: the retained table equals the
consecutive-pair description `gold_growth_rows_spec`, and every retained
row's first column stores a non-negative raw difference minus 100. -/
theorem gold_growth_filter_spec (rows : List WealthRow) :
    gold_growth_rows rows = gold_growth_rows_spec rows ∧
    (∀ e ∈ gold_growth_rows rows, ∃ d0 : Int, 0 ≤ d0 ∧ e.2.head? = some (d0 - 100)) := by
  constructor
  · cases rows with
    | nil => rfl
    | cons r rs =>
      show growth_aux r rs = (rs.zip (r :: rs)).filterMap growth_step
      exact growth_aux_eq_zip rs r
  · cases rows with
    | nil =>
      intro e he
      simp [gold_growth_rows] at he
    | cons r rs =>
      exact growth_aux_first_col rs r

theorem gold_growth_filter_spec_witness :
    ∃ d0 : Int, 0 ≤ d0 ∧ ([(-50 : Int), -180].head? = some (d0 - 100)) :=
  (gold_growth_filter_spec [⟨0, [0, 100]⟩, ⟨0, [50, 20]⟩]).2 (0, [-50, -180]) (by decide)

/-! ## C6 -/

/-- A list of booleans has fewer than two distinct values iff it does not
contain both `true` and `false`. -/
theorem bool_dedup_length_lt_two (bl : List Bool) :
    bl.dedup.length < 2 ↔ ¬ (true ∈ bl ∧ false ∈ bl) := by
  constructor
  · intro h ⟨ht, hf⟩
    have ht' : true ∈ bl.dedup := List.mem_dedup.mpr ht
    have hf' : false ∈ bl.dedup := List.mem_dedup.mpr hf
    match hd : bl.dedup with
    | [] =>
      rw [hd] at ht'
      simp at ht'
    | [a] =>
      rw [hd] at ht' hf'
      simp at ht' hf'
      subst ht'
      simp at hf'
    | a :: b :: t =>
      rw [hd] at h
      simp at h
      omega
  · intro h
    match hd : bl.dedup with
    | [] => simp
    | [a] => simp
    | a :: b :: t =>
      exfalso
      have hne : a ≠ b := by
        have := bl.nodup_dedup
        rw [hd] at this
        exact (List.nodup_cons.mp this).1 ∘ (fun e => e ▸ List.mem_cons_self b t)
      have ha : a ∈ bl := List.mem_dedup.mp (hd ▸ List.mem_cons_self a (b :: t))
      have hb : b ∈ bl := List.mem_dedup.mp
        (hd ▸ List.mem_cons_of_mem a (List.mem_cons_self b t))
      cases a <;> cases b <;> simp at hne ⊢ <;> exact h ⟨by assumption, by assumption⟩

theorem foldl_max_bounds (vs : List ℚ) :
    ∀ v : ℚ, v ≤ vs.foldl max v ∧ ∀ x ∈ vs, x ≤ vs.foldl max v := by
  induction vs with
  | nil =>
    intro v
    exact ⟨le_refl v, by simp⟩
  | cons a as ih =>
    intro v
    rw [List.foldl_cons]
    have h1 : max v a ≤ as.foldl max (max v a) := (ih (max v a)).1
    refine ⟨le_trans (le_max_left v a) h1, ?_⟩
    intro x hx
    rcases List.mem_cons.mp hx with hx | hx
    · rw [hx]
      exact le_trans (le_max_right v a) h1
    · exact (ih (max v a)).2 x hx

theorem foldl_max_mem (vs : List ℚ) :
    ∀ v : ℚ, vs.foldl max v = v ∨ vs.foldl max v ∈ vs := by
  induction vs with
  | nil =>
    intro v
    exact Or.inl rfl
  | cons a as ih =>
    intro v
    rcases ih (max v a) with h | h
    · rcases max_choice v a with hm | hm
      · exact Or.inl (by rw [List.foldl_cons, h, hm])
      · refine Or.inr (List.mem_cons.mpr (Or.inl ?_))
        rw [List.foldl_cons, h, hm]
    · exact Or.inr (List.mem_cons_of_mem a h)

theorem col_max_mem (l : List ℚ) (h : l ≠ []) : col_max l ∈ l := by
  match l with
  | v :: vs =>
    show vs.foldl max v ∈ v :: vs
    rcases foldl_max_mem vs v with h | h
    · rw [h]
      exact List.mem_cons_self v vs
    · exact List.mem_cons_of_mem v h

theorem le_col_max (l : List ℚ) : ∀ x ∈ l, x ≤ col_max l := by
  match l with
  | [] => simp
  | v :: vs =>
    intro x hx
    show x ≤ vs.foldl max v
    rcases List.mem_cons.mp hx with hx | hx
    · rw [hx]
      exact (foldl_max_bounds vs v).1
    · exact (foldl_max_bounds vs v).2 x hx

/-- Strict comparison of the maxima of two non-empty lists, characterized
element-wise. -/
theorem col_max_lt_col_max (dc rc : List ℚ) (hdc : dc ≠ []) (hrc : rc ≠ []) :
    (col_max dc < col_max rc ↔ ∃ x ∈ rc, ∀ y ∈ dc, y < x) := by
  constructor
  · intro h
    exact ⟨col_max rc, col_max_mem rc hrc, fun y hy => lt_of_le_of_lt (le_col_max dc y hy) h⟩
  · intro ⟨x, hx, hlt⟩
    exact lt_of_lt_of_le (hlt (col_max dc) (col_max_mem dc hdc)) (le_col_max rc x hx)

/-- C6: the per-match carry comparison is `-1` exactly when the carries do
not span both sides; when they do, it is 1 iff some radiant carry's gold
deviation strictly exceeds every dire carry's, and 0 otherwise (so ties
go to side B); and in the exported table a sentinel match's row is
`(Radiant_lead, Dire_lead) = (0, 0)`. -/
theorem carry_comparison_spec (g : List CarryRow) :
    (get_carry_comparison g = -1 ↔
      ¬ ((∃ r ∈ carries g, r.radiant_player = true) ∧
         (∃ r ∈ carries g, r.radiant_player = false))) ∧
    (((∃ r ∈ carries g, r.radiant_player = true) ∧
      (∃ r ∈ carries g, r.radiant_player = false)) →
      ((get_carry_comparison g = 1 ↔
         ∃ r ∈ carries g, r.radiant_player = true ∧
           ∀ d ∈ carries g, d.radiant_player = false → d.gold_diff < r.gold_diff) ∧
       (get_carry_comparison g = 0 ↔
         ¬ ∃ r ∈ carries g, r.radiant_player = true ∧
           ∀ d ∈ carries g, d.radiant_player = false → d.gold_diff < r.gold_diff))) ∧
    (∀ (games : List (List CarryRow)) (tbl : List (Nat × Nat)),
      construct_carry_comparison_df games = some tbl →
      ∀ (i : Nat) (g' : List CarryRow), games[i]? = some g' →
        get_carry_comparison g' = -1 → tbl[i]? = some (0, 0)) := by
  have hsides : ((carries g).map (fun r => r.radiant_player)).dedup.length < 2 ↔
      ¬ ((∃ r ∈ carries g, r.radiant_player = true) ∧
         (∃ r ∈ carries g, r.radiant_player = false)) := by
    rw [bool_dedup_length_lt_two]
    constructor
    · intro h ⟨h1, h0⟩
      obtain ⟨r1, hr1, he1⟩ := h1
      obtain ⟨r0, hr0, he0⟩ := h0
      exact h ⟨List.mem_map.mpr ⟨r1, hr1, he1⟩, List.mem_map.mpr ⟨r0, hr0, he0⟩⟩
    · intro h ⟨h1, h0⟩
      obtain ⟨r1, hr1, he1⟩ := List.mem_map.mp h1
      obtain ⟨r0, hr0, he0⟩ := List.mem_map.mp h0
      exact h ⟨⟨r1, hr1, he1⟩, ⟨r0, hr0, he0⟩⟩
  refine ⟨?_, ?_, ?_⟩
  · unfold get_carry_comparison
    by_cases h : ((carries g).map (fun r => r.radiant_player)).dedup.length < 2
    · rw [if_pos h]
      exact iff_of_true rfl (hsides.mp h)
    · rw [if_neg h]
      refine iff_of_false ?_ (fun hc => h (hsides.mpr hc))
      by_cases hcmp : col_max (((carries g).filter (fun r => !r.radiant_player)).map
          (fun r => r.gold_diff)) <
          col_max (((carries g).filter (fun r => r.radiant_player)).map (fun r => r.gold_diff))
      · rw [if_pos hcmp]
        decide
      · rw [if_neg hcmp]
        decide
  · intro htwo
    have hlen : ¬ ((carries g).map (fun r => r.radiant_player)).dedup.length < 2 :=
      fun h => (hsides.mp h) htwo
    have hrc : ((carries g).filter (fun r => r.radiant_player)).map
        (fun r => r.gold_diff) ≠ [] := by
      obtain ⟨r1, hr1, he1⟩ := htwo.1
      have hmem : r1 ∈ (carries g).filter (fun r => r.radiant_player) :=
        List.mem_filter.mpr ⟨hr1, by rw [he1]⟩
      intro hnil
      rw [List.map_eq_nil_iff.mp hnil] at hmem
      exact List.not_mem_nil r1 hmem
    have hdc : ((carries g).filter (fun r => !r.radiant_player)).map
        (fun r => r.gold_diff) ≠ [] := by
      obtain ⟨r0, hr0, he0⟩ := htwo.2
      have hmem : r0 ∈ (carries g).filter (fun r => !r.radiant_player) :=
        List.mem_filter.mpr ⟨hr0, by rw [he0]; rfl⟩
      intro hnil
      rw [List.map_eq_nil_iff.mp hnil] at hmem
      exact List.not_mem_nil r0 hmem
    have hchar : (col_max (((carries g).filter (fun r => !r.radiant_player)).map
          (fun r => r.gold_diff)) <
        col_max (((carries g).filter (fun r => r.radiant_player)).map
          (fun r => r.gold_diff))) ↔
        ∃ r ∈ carries g, r.radiant_player = true ∧
          ∀ d ∈ carries g, d.radiant_player = false → d.gold_diff < r.gold_diff := by
      rw [col_max_lt_col_max _ _ hdc hrc]
      constructor
      · intro ⟨x, hx, hall⟩
        obtain ⟨r, hr, hrx⟩ := List.mem_map.mp hx
        obtain ⟨hrmem, hrrad⟩ := List.mem_filter.mp hr
        refine ⟨r, hrmem, by simpa using hrrad, ?_⟩
        intro d hd hdrad
        have : d.gold_diff ∈ ((carries g).filter (fun r => !r.radiant_player)).map
            (fun r => r.gold_diff) :=
          List.mem_map.mpr ⟨d, List.mem_filter.mpr ⟨hd, by rw [hdrad]; rfl⟩, rfl⟩
        exact hrx ▸ hall d.gold_diff this
      · intro ⟨r, hr, hrrad, hall⟩
        refine ⟨r.gold_diff,
          List.mem_map.mpr ⟨r, List.mem_filter.mpr ⟨hr, by rw [hrrad]⟩, rfl⟩, ?_⟩
        intro y hy
        obtain ⟨d, hd, hdy⟩ := List.mem_map.mp hy
        obtain ⟨hdmem, hdrad⟩ := List.mem_filter.mp hd
        exact hdy ▸ hall d hdmem (by simpa using hdrad)
    unfold get_carry_comparison
    rw [if_neg hlen]
    by_cases hcmp : col_max (((carries g).filter (fun r => !r.radiant_player)).map
        (fun r => r.gold_diff)) <
        col_max (((carries g).filter (fun r => r.radiant_player)).map (fun r => r.gold_diff))
    · rw [if_pos hcmp]
      exact ⟨iff_of_true rfl (hchar.mp hcmp),
        iff_of_false (by decide) (fun hc => hc (hchar.mp hcmp))⟩
    · rw [if_neg hcmp]
      exact ⟨iff_of_false (by decide) (fun he => hcmp (hchar.mpr he)),
        iff_of_true rfl (fun he => hcmp (hchar.mpr he))⟩
  · intro games tbl htbl i g' hg hval
    unfold construct_carry_comparison_df at htbl
    by_cases h : (1 : Int) ∈ (games.map get_carry_comparison).dedup ∧
        (0 : Int) ∈ (games.map get_carry_comparison).dedup
    · rw [if_pos h, Option.some_inj] at htbl
      rw [← htbl, List.getElem?_map, List.getElem?_map, hg, Option.map_some',
        Option.map_some', hval]
      decide
    · rw [if_neg h] at htbl
      exact absurd htbl (by simp)

theorem carry_comparison_spec_witness :
    get_carry_comparison [⟨true, "Carry", 3⟩, ⟨false, "Carry", 1⟩] = 1 :=
  (((carry_comparison_spec [⟨true, "Carry", 3⟩, ⟨false, "Carry", 1⟩]).2.1
      ⟨by decide, by decide⟩).1).mpr (by decide)

/-! ## C9 -/

theorem assign_ones_length (ps : List Nat) : ∀ v : List Nat,
    (assign_ones v ps).length = v.length := by
  induction ps with
  | nil =>
    intro v
    rfl
  | cons p ps ih =>
    intro v
    show (assign_ones (v.set p 1) ps).length = v.length
    rw [ih (v.set p 1), List.length_set]

/-- Pointwise description of NumPy fancy-index assignment at distinct,
in-range positions. -/
theorem assign_ones_getElem? (ps : List Nat) : ∀ (v : List Nat) (j : Nat), ps.Nodup →
    (∀ p ∈ ps, p < v.length) →
    (assign_ones v ps)[j]? = if j ∈ ps then some 1 else v[j]? := by
  induction ps with
  | nil =>
    intro v j _ _
    simp [assign_ones]
  | cons p ps ih =>
    intro v j hnd hbd
    obtain ⟨hp, hps⟩ := List.nodup_cons.mp hnd
    have hbd' : ∀ q ∈ ps, q < (v.set p 1).length := by
      intro q hq
      rw [List.length_set]
      exact hbd q (List.mem_cons_of_mem p hq)
    have step : assign_ones v (p :: ps) = assign_ones (v.set p 1) ps := rfl
    rw [step, ih (v.set p 1) j hps hbd']
    by_cases hj : j ∈ ps
    · rw [if_pos hj, if_pos (List.mem_cons_of_mem p hj)]
    · rw [if_neg hj]
      by_cases hjp : j = p
      · rw [hjp, if_pos (List.mem_cons_self p ps),
          List.getElem?_set_eq_of_lt 1 (hbd p (List.mem_cons_self p ps))]
      · rw [List.getElem?_set_ne (fun e => hjp e.symm),
          if_neg (fun hc => (List.mem_cons.mp hc).elim hjp hj)]

theorem countP_mem_range (ps : List Nat) (n : Nat) (hnd : ps.Nodup)
    (hbd : ∀ p ∈ ps, p < n) :
    (List.range n).countP (fun j => decide (j ∈ ps)) = ps.length := by
  rw [List.countP_eq_length_filter]
  refine List.Perm.length_eq
    (List.perm_of_nodup_nodup_toFinset_eq ((List.nodup_range n).filter _) hnd ?_)
  ext a
  simp only [List.mem_toFinset, List.mem_filter, List.mem_range, decide_eq_true_eq]
  exact ⟨fun h => h.2, fun h => ⟨hbd a h, h⟩⟩

/-- C9: for a match with five radiant picks and five dire picks, all hero
ids in `[1, H]` and pairwise distinct, the selection vector has length
`2*H`, exactly ten entries equal to 1, and entry `j` is 1 exactly at the
radiant positions `h - 1` and the dire positions `h + H - 1`, 0
everywhere else. -/
theorem hero_selection_spec (H : Nat) (radiant dire : List Nat)
    (hrl : radiant.length = 5) (hdl : dire.length = 5)
    (hrb : ∀ h ∈ radiant, 1 ≤ h ∧ h ≤ H) (hdb : ∀ h ∈ dire, 1 ≤ h ∧ h ≤ H)
    (hnd : (radiant ++ dire).Nodup) :
    (get_hero_selection H radiant dire).length = 2 * H ∧
    (get_hero_selection H radiant dire).count 1 = 10 ∧
    (∀ j, j < 2 * H →
      (get_hero_selection H radiant dire)[j]? =
        some (if (∃ h ∈ radiant, h - 1 = j) ∨ (∃ h ∈ dire, h + H - 1 = j) then 1 else 0)) := by
  have hr : radiant.Nodup := hnd.of_append_left
  have hd : dire.Nodup := hnd.of_append_right
  have hpr : (radiant.map (fun h => h - 1)).Nodup := by
    refine hr.map_on ?_
    intro x hx y hy hxy
    have := (hrb x hx).1
    have := (hrb y hy).1
    omega
  have hpd : (dire.map (fun h => h + H - 1)).Nodup := by
    refine hd.map_on ?_
    intro x hx y hy hxy
    have := (hdb x hx).1
    have := (hdb y hy).1
    omega
  have hdisj : (radiant.map (fun h => h - 1)).Disjoint (dire.map (fun h => h + H - 1)) := by
    intro a ha hb
    obtain ⟨x, hx, hxa⟩ := List.mem_map.mp ha
    obtain ⟨y, hy, hya⟩ := List.mem_map.mp hb
    have h1 := hrb x hx
    have h2 := hdb y hy
    omega
  have hps : (radiant.map (fun h => h - 1) ++ dire.map (fun h => h + H - 1)).Nodup :=
    hpr.append hpd hdisj
  have hbd : ∀ p ∈ radiant.map (fun h => h - 1) ++ dire.map (fun h => h + H - 1),
      p < 2 * H := by
    intro p hp
    rcases List.mem_append.mp hp with hp | hp
    · obtain ⟨x, hx, hxa⟩ := List.mem_map.mp hp
      have := hrb x hx
      omega
    · obtain ⟨y, hy, hya⟩ := List.mem_map.mp hp
      have := hdb y hy
      omega
  have hbd' : ∀ p ∈ radiant.map (fun h => h - 1) ++ dire.map (fun h => h + H - 1),
      p < (List.replicate (2 * H) 0).length := by
    rw [List.length_replicate]
    exact hbd
  have hmem : ∀ j : Nat,
      (j ∈ radiant.map (fun h => h - 1) ++ dire.map (fun h => h + H - 1)) ↔
        ((∃ h ∈ radiant, h - 1 = j) ∨ (∃ h ∈ dire, h + H - 1 = j)) := by
    intro j
    rw [List.mem_append, List.mem_map, List.mem_map]
  have hget : ∀ j : Nat, (get_hero_selection H radiant dire)[j]? =
      if j ∈ radiant.map (fun h => h - 1) ++ dire.map (fun h => h + H - 1) then some 1
      else (List.replicate (2 * H) (0 : Nat))[j]? := by
    intro j
    exact assign_ones_getElem? _ (List.replicate (2 * H) 0) j hps hbd'
  have hlen : (get_hero_selection H radiant dire).length = 2 * H := by
    rw [get_hero_selection, assign_ones_length, List.length_replicate]
  refine ⟨hlen, ?_, ?_⟩
  · have heq : get_hero_selection H radiant dire =
        (List.range (2 * H)).map (fun j =>
          if j ∈ radiant.map (fun h => h - 1) ++ dire.map (fun h => h + H - 1) then 1
          else 0) := by
      refine List.ext_getElem? ?_
      intro j
      rw [hget j]
      by_cases hj : j < 2 * H
      · rw [List.getElem?_map, List.getElem?_range hj, Option.map_some',
          List.getElem?_replicate, if_pos hj]
        by_cases hjm : j ∈ radiant.map (fun h => h - 1) ++ dire.map (fun h => h + H - 1)
        · rw [if_pos hjm, if_pos hjm]
        · rw [if_neg hjm, if_neg hjm]
      · rw [if_neg (fun hc => hj (hbd j hc)), List.getElem?_eq_none, List.getElem?_eq_none]
        · rw [List.length_map, List.length_range]
          omega
        · rw [List.length_replicate]
          omega
    rw [heq, List.count_eq_countP, List.countP_map]
    have hpred : ((fun x => x == 1) ∘ fun j =>
        if j ∈ radiant.map (fun h => h - 1) ++ dire.map (fun h => h + H - 1)
        then (1 : Nat) else 0) =
          (fun j => decide (j ∈ radiant.map (fun h => h - 1) ++
            dire.map (fun h => h + H - 1))) := by
      funext j
      simp only [Function.comp_apply]
      by_cases hjm : j ∈ radiant.map (fun h => h - 1) ++ dire.map (fun h => h + H - 1)
      · rw [if_pos hjm, decide_eq_true hjm]
        rfl
      · rw [if_neg hjm, decide_eq_false hjm]
        rfl
    rw [hpred, countP_mem_range _ _ hps hbd, List.length_append, List.length_map,
      List.length_map, hrl, hdl]
  · intro j hj
    rw [hget j, List.getElem?_replicate, if_pos hj]
    by_cases hjm : j ∈ radiant.map (fun h => h - 1) ++ dire.map (fun h => h + H - 1)
    · rw [if_pos hjm, if_pos ((hmem j).mp hjm)]
    · rw [if_neg hjm, if_neg (fun hc => hjm ((hmem j).mpr hc))]

theorem hero_selection_spec_witness :
    (get_hero_selection 10 [1, 2, 3, 4, 5] [6, 7, 8, 9, 10]).count 1 = 10 :=
  (hero_selection_spec 10 [1, 2, 3, 4, 5] [6, 7, 8, 9, 10] rfl rfl
    (by decide) (by decide) (by decide)).2.1

/-! ## C8 -/

theorem growth_aux_append (xs : List WealthRow) : ∀ (prev : WealthRow) (ys : List WealthRow),
    growth_aux prev (xs ++ ys) = growth_aux prev xs ++ growth_aux (xs.getLastD prev) ys := by
  induction xs with
  | nil =>
    intro prev ys
    rfl
  | cons a as ih =>
    intro prev ys
    rw [List.cons_append, List.getLastD_cons]
    simp only [growth_aux]
    cases hh : (List.zipWith (fun x y => x - y) a.gold prev.gold).head? with
    | none =>
      exact ih a ys
    | some d0 =>
      dsimp only
      by_cases hd : 0 ≤ d0
      · rw [if_pos hd, if_pos hd, ih a ys, List.cons_append]
      · rw [if_neg hd, if_neg hd]
        exact ih a ys

/-- Every entry of the growth table over `rs` carries the match id of one
of the rows of `rs`. -/
theorem growth_aux_ids (rs : List WealthRow) : ∀ prev, ∀ e ∈ growth_aux prev rs,
    e.1 ∈ rs.map (fun r => r.match_id) := by
  induction rs with
  | nil =>
    intro prev e he
    simp [growth_aux] at he
  | cons r rs ih =>
    intro prev e he
    simp only [growth_aux] at he
    rw [List.map_cons]
    split at he
    case _ d0 hh =>
      split at he
      case isTrue hd =>
        rcases List.mem_cons.mp he with he | he
        · rw [he]
          exact List.mem_cons_self _ _
        · exact List.mem_cons_of_mem _ (ih r e he)
      case isFalse hd =>
        exact List.mem_cons_of_mem _ (ih r e he)
    case _ hh =>
      exact List.mem_cons_of_mem _ (ih r e he)

theorem filterMap_group_eq_nil (L : List (Nat × List Int)) (m : Nat)
    (h : ∀ e ∈ L, e.1 ≠ m) :
    L.filterMap (fun e => if e.1 = m then some e.2 else none) = [] := by
  induction L with
  | nil => rfl
  | cons a L ih =>
    rw [List.filterMap_cons, if_neg (h a (List.mem_cons_self a L))]
    exact ih (fun e he => h e (List.mem_cons_of_mem a he))

theorem filterMap_group_eq_map (L : List (Nat × List Int)) (m : Nat)
    (h : ∀ e ∈ L, e.1 = m) :
    L.filterMap (fun e => if e.1 = m then some e.2 else none) = L.map (fun e => e.2) := by
  induction L with
  | nil => rfl
  | cons a L ih =>
    rw [List.filterMap_cons, if_pos (h a (List.mem_cons_self a L)), List.map_cons,
      ih (fun e he => h e (List.mem_cons_of_mem a he))]

/-- When the rows of match `m` form the contiguous block `x`, the growth
group of `m` is determined by `x` and the row `w` immediately preceding
it — no other row of the table matters. -/
theorem gold_growth_group_decomp (p x s : List WealthRow) (m : Nat) (w : WealthRow)
    (hp : p.getLast? = some w)
    (hx : ∀ r ∈ x, r.match_id = m)
    (hpm : ∀ r ∈ p, r.match_id ≠ m) (hsm : ∀ r ∈ s, r.match_id ≠ m) :
    gold_growth_group (p ++ (x ++ s)) m = (growth_aux w x).map (fun e => e.2) := by
  cases p with
  | nil =>
    simp at hp
  | cons hd tl =>
    have hw : tl.getLastD hd = w := by
      rw [List.getLastD_eq_getLast?]
      rw [List.getLast?_cons] at hp
      exact Option.some_inj.mp hp
    have hrows : gold_growth_rows ((hd :: tl) ++ (x ++ s)) =
        growth_aux hd tl ++ (growth_aux w x ++ growth_aux (x.getLastD w) s) := by
      rw [List.cons_append]
      show growth_aux hd (tl ++ (x ++ s)) = _
      rw [growth_aux_append tl hd (x ++ s), hw, growth_aux_append x w s]
    unfold gold_growth_group
    rw [hrows, List.filterMap_append, List.filterMap_append]
    have hA : (growth_aux hd tl).filterMap
        (fun e => if e.1 = m then some e.2 else none) = [] := by
      refine filterMap_group_eq_nil _ m ?_
      intro e he
      obtain ⟨r, hr, hre⟩ := List.mem_map.mp (growth_aux_ids tl hd e he)
      rw [← hre]
      exact hpm r (List.mem_cons_of_mem hd hr)
    have hB : (growth_aux w x).filterMap
        (fun e => if e.1 = m then some e.2 else none) =
        (growth_aux w x).map (fun e => e.2) := by
      refine filterMap_group_eq_map _ m ?_
      intro e he
      obtain ⟨r, hr, hre⟩ := List.mem_map.mp (growth_aux_ids x w e he)
      rw [← hre]
      exact hx r hr
    have hC : (growth_aux (x.getLastD w) s).filterMap
        (fun e => if e.1 = m then some e.2 else none) = [] := by
      refine filterMap_group_eq_nil _ m ?_
      intro e he
      obtain ⟨r, hr, hre⟩ := List.mem_map.mp (growth_aux_ids s (x.getLastD w) e he)
      rw [← hre]
      exact hsm r hr
    rw [hA, hB, hC, List.nil_append, List.append_nil]

/-- C8 counterexample: two wealth tables that agree on every row of
match 1 but differ on match 0's rows give different gold-growth means for
match 1 — the first difference of match 1's first sample is taken against
match 0's last sample, a cross-match data dependency. -/
theorem gold_growth_cross_match_cex :
    ([⟨0, [0]⟩, ⟨1, [200]⟩] : List WealthRow).filter (fun r => r.match_id == 1) =
      ([⟨0, [100]⟩, ⟨1, [200]⟩] : List WealthRow).filter (fun r => r.match_id == 1) ∧
    gold_growth_mean [⟨0, [0]⟩, ⟨1, [200]⟩] 1 ≠
      gold_growth_mean [⟨0, [100]⟩, ⟨1, [200]⟩] 1 := by
  refine ⟨by decide, ?_⟩
  intro h
  have hA : gold_growth_mean [⟨0, [0]⟩, ⟨1, [200]⟩] 1 =
      some ((((100 : Int) : ℚ)) / ((1 : Nat) : ℚ)) := rfl
  have hB : gold_growth_mean [⟨0, [100]⟩, ⟨1, [200]⟩] 1 =
      some ((((0 : Int) : ℚ)) / ((1 : Nat) : ℚ)) := rfl
  rw [hA, hB] at h
  have h2 := Option.some_inj.mp h
  norm_num at h2

/-- C8 (amended): the gold-growth statistics of match `m` are *not* a
function of match `m`'s rows alone; they are a function of match `m`'s
contiguous block and of the single row immediately preceding it in the
global row order. Two tables whose `m`-blocks and preceding rows agree
produce identical growth groups, hence identical means (and any other
per-group statistic). -/
theorem gold_growth_locality (p p' x s s' : List WealthRow) (m : Nat) (w : WealthRow)
    (hp : p.getLast? = some w) (hp' : p'.getLast? = some w)
    (hx : ∀ r ∈ x, r.match_id = m)
    (hpm : ∀ r ∈ p, r.match_id ≠ m) (hp'm : ∀ r ∈ p', r.match_id ≠ m)
    (hsm : ∀ r ∈ s, r.match_id ≠ m) (hs'm : ∀ r ∈ s', r.match_id ≠ m) :
    gold_growth_group (p ++ (x ++ s)) m = gold_growth_group (p' ++ (x ++ s')) m ∧
    gold_growth_mean (p ++ (x ++ s)) m = gold_growth_mean (p' ++ (x ++ s')) m := by
  have hg : gold_growth_group (p ++ (x ++ s)) m = gold_growth_group (p' ++ (x ++ s')) m :=
    (gold_growth_group_decomp p x s m w hp hx hpm hsm).trans
      (gold_growth_group_decomp p' x s' m w hp' hx hp'm hs'm).symm
  refine ⟨hg, ?_⟩
  unfold gold_growth_mean
  rw [hg]

theorem gold_growth_locality_witness :
    gold_growth_mean ([⟨0, [0]⟩] ++ ([⟨1, [200]⟩] ++ [])) 1 =
      gold_growth_mean ([⟨5, [7]⟩, ⟨0, [0]⟩] ++ ([⟨1, [200]⟩] ++ [⟨2, [50]⟩])) 1 :=
  (gold_growth_locality [⟨0, [0]⟩] [⟨5, [7]⟩, ⟨0, [0]⟩] [⟨1, [200]⟩] [] [⟨2, [50]⟩] 1
    ⟨0, [0]⟩ (by decide) (by decide) (by decide) (by decide) (by decide) (by decide)
    (by decide)).2

end DataCleaning
